import Mathlib

/-!
Shallow embedding of `egs/ljspeech/TTS/vits/tokenizer.py` (class `Tokenizer`).

Python strings are modelled as `List Char` (one entry per Unicode code
point); the entries of `char_list` / token sequences are modelled as
`Token := List Char` (a Python `str` element of the list).  The external
collaborators (jieba word segmentation and pypinyin romanization) are
parameters of the embedded functions, as the spec treats them as external
collaborators.
-/

namespace VitsTokenizer

/-- A token: one element of the Python `char_list` (a `str`). -/
abbrev Token : Type := List Char

/-- The apostrophe character `U+0027`. -/
def apos : Char := Char.ofNat 39

/-- The double-quote character `U+0022`. -/
def quot : Char := Char.ofNat 34

/-- UTF-8 byte length of a string, `len(bytes(seg, "UTF-8"))`. -/
def utf8Len (s : List Char) : Nat :=
  (s.map Char.utf8Size).sum

/-- Embeds `is_chinese` (tokenizer.py lines 69-72): code point in the
inclusive range `U+3100`..`U+9FFF`. -/
def is_chinese (c : Char) : Bool :=
  decide (0x3100 ≤ c.toNat ∧ c.toNat ≤ 0x9fff)

/-- Embeds the `custom_trans` table built with `str.maketrans`
(tokenizer.py lines 65-67).  Note the full-width semicolon `；` and the
ASCII semicolon `;` both map to the comma, and `“ ” ‘ ’` map to the ASCII
double quote / apostrophe. -/
def customTrans (c : Char) : Char :=
  if c = '（' then '('
  else if c = '）' then ')'
  else if c = '：' then ':'
  else if c = '；' then ','
  else if c = ';' then ','
  else if c = '“' then quot
  else if c = '”' then quot
  else if c = '‘' then apos
  else if c = '’' then apos
  else c

/-- Embeds `text.translate(custom_trans)` (tokenizer.py line 76). -/
def applyTrans (text : List Char) : List Char :=
  text.map customTrans

/-- Boolean prefix test on character lists (used for the Python substring
test `x in " :'\""` on line 80, whose left operand is a token string). -/
def prefixEq : List Char → List Char → Bool
  | [], _ => true
  | _ :: _, [] => false
  | a :: as, b :: bs => a == b && prefixEq as bs

/-- Boolean substring (contiguous) test on character lists: Python's
`x in y` for strings. -/
def subListOf (xs : List Char) : List Char → Bool
  | [] => prefixEq xs []
  | b :: bs => prefixEq xs (b :: bs) || subListOf xs bs

/-- The string `" :'\""` from tokenizer.py line 80: space, colon,
apostrophe, double quote. -/
def sepChars : List Char := [' ', ':', apos, quot]

/-- Embeds the separator condition of the Latin branch (tokenizer.py
line 80): `char_list and seg_byte_len > 1 and char_list[-1] not in " :'\""`. -/
def sepNeeded (acc : List Token) (bl : Nat) : Bool :=
  match acc.getLast? with
  | none => false
  | some t => decide (1 < bl) && ! subListOf t sepChars

/-- Embeds the loop body of the pure-east-asian branch (tokenizer.py
lines 84-88): for each `(i, c)` in `enumerate(seg)`, append `" "` when
`is_chinese(c)`, then append `seg_[i]`.  The indexing `seg_[i]` is
modelled by zipping `seg` with the romanizer output `syl`
(the romanizer contract is length-preserving, spec section 6). -/
def cjkRewrite (syl : List Token) (seg : List Char) : List Token :=
  (seg.zip syl).foldr
    (fun p out => (if is_chinese p.1 then [([' '] : Token)] else []) ++ [p.2] ++ out) []

/-- Embeds the mixed-characters branch (tokenizer.py lines 89-97):
character by character; `ord(c) < 256` passes through, `is_chinese(c)`
gets a separator plus its per-character romanization
`lazy_pinyin(c, ...)`, anything else passes through. -/
def mixedRewrite (rom : List Char → List Token) (seg : List Char) : List Token :=
  seg.foldr
    (fun c out =>
      (if c.toNat < 256 then [([c] : Token)]
       else if is_chinese c then ([' '] : Token) :: rom [c]
       else [([c] : Token)]) ++ out) []

/-- Embeds the per-segment body of `convert_char_to_pinyin`
(tokenizer.py lines 77-97): classify the segment by UTF-8 byte length
versus character count, then extend `char_list` (here `acc`) by the
branch's emission.  `rom` embeds `lazy_pinyin(·, style=Style.TONE3,
tone_sandhi=True)`. -/
def processSeg (rom : List Char → List Token) (polyphone : Bool)
    (acc : List Token) (seg : List Char) : List Token :=
  if utf8Len seg = seg.length then
    (if sepNeeded acc (utf8Len seg) then acc ++ [([' '] : Token)] else acc)
      ++ seg.map (fun c => ([c] : Token))
  else if polyphone = true ∧ utf8Len seg = 3 * seg.length then
    acc ++ cjkRewrite (rom seg) seg
  else
    acc ++ mixedRewrite rom seg

/-- Embeds the `for seg in jieba.cut(text)` loop (tokenizer.py
lines 75-97): fold the per-segment body over the segment list, starting
from the empty `char_list`. -/
def processSegs (rom : List Char → List Token) (polyphone : Bool)
    (segs : List (List Char)) : List Token :=
  segs.foldl (processSeg rom polyphone) []

/-- Embeds `Tokenizer.convert_char_to_pinyin` (tokenizer.py lines 63-100).
`segf` embeds the external word segmenter `jieba.cut`. -/
def convert_char_to_pinyin (segf : List Char → List (List Char))
    (rom : List Char → List Token) (polyphone : Bool)
    (text_list : List (List Char)) : List (List Token) :=
  text_list.map (fun text => processSegs rom polyphone (segf (applyTrans text)))

/-- Modelled from the spec: the function `intersperse` is imported by
tokenizer.py line 31 from `utils`, whose source is not among the sources
of this development.  Spec section 4.4 `ApplyBlankInterspersion`: "new
sequence with `pad_id` inserted between every pair of adjacent original
ids (not before the first or after the last element); a sequence of
length 0 or 1 is returned unchanged by the interspersion itself". -/
def intersperse (seq : List Int) (item : Int) : List Int :=
  match seq with
  | [] => []
  | [x] => [x]
  | x :: y :: rest => x :: item :: intersperse (y :: rest) item

/-- First-match association-list lookup, modelling Python dict access on
`token2id` (keyed insertion is duplicate-free thanks to the assert on
tokenizer.py line 51, so first match is the dict entry). -/
def lookupTok : List (Token × Int) → Token → Option Int
  | [], _ => none
  | (k, v) :: rest, t => if k = t then some v else lookupTok rest t

/-- Embeds the state of a constructed `Tokenizer` object
(tokenizer.py lines 41-58): the parsed `token2id` mapping and the four
reserved ids extracted from it. -/
structure Tokenizer where
  token2id : List (Token × Int)
  pad_id : Int
  sos_id : Int
  eos_id : Int
  space_id : Int

/-- Embeds tokenizer.py lines 55-58: extract `pad_id = token2id["_"]`,
`sos_id = token2id["^"]`, `eos_id = token2id["$"]`,
`space_id = token2id[" "]`; a missing reserved token raises `KeyError`
in Python, modelled as `none`. -/
def mkTokenizer (t2id : List (Token × Int)) : Option Tokenizer :=
  match lookupTok t2id ['_'], lookupTok t2id ['^'],
      lookupTok t2id ['$'], lookupTok t2id [' '] with
  | some p, some s, some e, some sp => some ⟨t2id, p, s, e, sp⟩
  | _, _, _, _ => none

/-- Embeds the per-token step of the id-mapping loop (tokenizer.py
lines 184-188): an in-vocabulary token appends its id to the first
component; an out-of-vocabulary token is skipped and recorded in the
second component, which models the stream of `logging.warning(f"Skip
OOV {t}")` diagnostics. -/
def mapStep (t2id : List (Token × Int)) (acc : List Int × List Token)
    (t : Token) : List Int × List Token :=
  match lookupTok t2id t with
  | none => (acc.1, acc.2 ++ [t])
  | some i => (acc.1 ++ [i], acc.2)

/-- Embeds the id-mapping loop over one utterance (tokenizer.py
lines 183-188), returning the built `token_ids` and the list of warned
(skipped) tokens. -/
def mapTokens (t2id : List (Token × Int)) (tokens : List Token) :
    List Int × List Token :=
  tokens.foldl (mapStep t2id) ([], [])

/-- The blank-interspersion stage (tokenizer.py lines 190-191). -/
def blankStage (b : Bool) (pad : Int) (ids : List Int) : List Int :=
  if b then intersperse ids pad else ids

/-- The sos-prepending stage (tokenizer.py lines 192-193). -/
def sosStage (b : Bool) (sos : Int) (ids : List Int) : List Int :=
  if b then sos :: ids else ids

/-- The eos-appending stage (tokenizer.py lines 194-195). -/
def eosStage (b : Bool) (eos : Int) (ids : List Int) : List Int :=
  if b then ids ++ [eos] else ids

/-- Embeds the per-utterance body of `tokens_to_token_ids`
(tokenizer.py lines 183-195): map tokens to ids, then the three
sequential reassignments of `token_ids`. -/
def perUtt (tk : Tokenizer) (intersperse_blank add_sos add_eos : Bool)
    (tokens : List Token) : List Int :=
  let token_ids := (mapTokens tk.token2id tokens).1
  let token_ids := if intersperse_blank then intersperse token_ids tk.pad_id else token_ids
  let token_ids := if add_sos then tk.sos_id :: token_ids else token_ids
  if add_eos then token_ids ++ [tk.eos_id] else token_ids

/-- Embeds `Tokenizer.tokens_to_token_ids` (tokenizer.py lines 159-199):
the outer loop appends one per-utterance result per element of
`tokens_list`. -/
def tokens_to_token_ids (tk : Tokenizer) (tokens_list : List (List Token))
    (intersperse_blank add_sos add_eos : Bool) : List (List Int) :=
  tokens_list.map (perUtt tk intersperse_blank add_sos add_eos)

/-- Embeds `Tokenizer.texts_to_token_ids` (tokenizer.py lines 102-157):
for `lang` in `["cmn", "zh-cn"]` it converts through
`convert_char_to_pinyin` (with the default `polyphone=True`) and then
`tokens_to_token_ids`; for any other `lang` the function body ends after
a bare (dead) string literal, so Python returns `None`, modelled as
`none`. -/
def texts_to_token_ids (tk : Tokenizer) (segf : List Char → List (List Char))
    (rom : List Char → List Token) (texts : List (List Char))
    (intersperse_blank add_sos add_eos : Bool) (lang : String) :
    Option (List (List Int)) :=
  if lang = "cmn" ∨ lang = "zh-cn" then
    some (tokens_to_token_ids tk
      (convert_char_to_pinyin segf rom true texts)
      intersperse_blank add_sos add_eos)
  else
    none

/-- Python whitespace characters stripped by `str.rstrip()` and split on
by `str.split()`. -/
def isWs (c : Char) : Bool :=
  c = ' ' || c = '\t' || c = '\n' || c = '\x0b' || c = '\x0c' || c = '\r'

/-- Embeds `line.rstrip()`: drop trailing whitespace. -/
def rstrip (line : List Char) : List Char :=
  (line.reverse.dropWhile isWs).reverse

/-- Helper for `splitWs`: accumulate the current field (reversed). -/
def splitWsAux : List Char → List Char → List Token
  | [], cur => if cur = [] then [] else [cur.reverse]
  | c :: rest, cur =>
    if isWs c then
      if cur = [] then splitWsAux rest []
      else cur.reverse :: splitWsAux rest []
    else splitWsAux rest (c :: cur)

/-- Embeds `str.split()` with no argument: split on runs of whitespace,
discarding empty fields. -/
def splitWs (line : List Char) : List Token :=
  splitWsAux line []

/-- Decimal digit test for the integer parser. -/
def isDigitCh (c : Char) : Bool :=
  '0' ≤ c && c ≤ '9'

/-- Value of a list of decimal digits. -/
def digitsVal (s : List Char) : Nat :=
  s.foldl (fun n c => 10 * n + (c.toNat - 48)) 0

/-- Parses a non-empty all-digit string to a natural number. -/
def parseDigits (s : List Char) : Option Nat :=
  if s ≠ [] ∧ s.all isDigitCh then some (digitsVal s) else none

/-- Embeds Python `int()` on a whitespace-free field: an optional sign
followed by decimal digits; anything else raises `ValueError`,
modelled as `none`. -/
def parseIntTok (s : List Char) : Option Int :=
  match s with
  | '-' :: rest => (parseDigits rest).map (fun n => -(n : Int))
  | '+' :: rest => (parseDigits rest).map (fun n => (n : Int))
  | _ => (parseDigits s).map (fun n => (n : Int))

/-- The exceptions the vocabulary-parsing loop of `Tokenizer.__init__`
(tokenizer.py lines 42-52) can raise: `IndexError` from `info[0]` on a
field-less line, `ValueError` from `int(...)`, `AssertionError` from the
duplicate-token assert. -/
inductive VocabError where
  | indexError
  | valueError
  | duplicateToken
  deriving DecidableEq

/-- Embeds `self.token2id[token] = id` guarded by
`assert token not in self.token2id` (tokenizer.py lines 51-52). -/
def insertTok (acc : List (Token × Int)) (t : Token) (id : Int) :
    Except VocabError (List (Token × Int)) :=
  if (lookupTok acc t).isSome then .error .duplicateToken
  else .ok (acc ++ [(t, id)])

/-- Embeds the body of the vocabulary-parsing loop (tokenizer.py
lines 44-52): `info = line.rstrip().split()`; one field means the space
token with `int(info[0])` as id; otherwise `info[0]` and `int(info[1])`
are used, so a field-less (blank) line raises `IndexError` at
`info[0]`. -/
def parseLine (acc : List (Token × Int)) (line : List Char) :
    Except VocabError (List (Token × Int)) :=
  match splitWs (rstrip line) with
  | [x] =>
    match parseIntTok x with
    | some id => insertTok acc [' '] id
    | none => .error .valueError
  | [] => .error .indexError
  | t :: x :: _ =>
    match parseIntTok x with
    | some id => insertTok acc t id
    | none => .error .valueError

/-- One step of folding `parseLine` over the lines: a raised exception
aborts the whole construction. -/
def parseStep (st : Except VocabError (List (Token × Int)))
    (line : List Char) : Except VocabError (List (Token × Int)) :=
  match st with
  | .error e => .error e
  | .ok acc => parseLine acc line

/-- Embeds the `for line in f.readlines()` loop of `Tokenizer.__init__`
(tokenizer.py lines 43-52) over the list of lines of the vocabulary
file. -/
def parseTokens (lines : List (List Char)) :
    Except VocabError (List (Token × Int)) :=
  lines.foldl parseStep (.ok [])

/-! Concrete collaborator instances used for witnesses and
counterexamples. -/

/-- A romanizer that passes every character through unchanged. -/
def romId (s : List Char) : List Token :=
  s.map (fun c => [c])

/-- A concrete tone-sandhi-aware romanizer on the word `你好`: the whole
word romanizes to `ni2 hao3` (third-tone sandhi applies across the two
syllables), while each character alone romanizes to its citation tone
`ni3` / `hao3`; all other characters pass through. -/
def rom0 (s : List Char) : List Token :=
  if s = ['你', '好'] then [['n', 'i', '2'], ['h', 'a', 'o', '3']]
  else if s = ['你'] then [['n', 'i', '3']]
  else if s = ['好'] then [['h', 'a', 'o', '3']]
  else s.map (fun c => [c])

/-- A concrete romanizer without tone sandhi on `你好`: the whole word
romanizes to `ni3 hao3`. -/
def romC7 (s : List Char) : List Token :=
  if s = ['你', '好'] then [['n', 'i', '3'], ['h', 'a', 'o', '3']]
  else s.map (fun c => [c])

/-- A concrete romanizer for the heterogeneous CJK-class segment `你の`
(both characters are 3 UTF-8 bytes, but only `你` is in the
`U+3100`..`U+9FFF` range): `你` romanizes to `ni3`, the hiragana `の`
passes through, as pypinyin does for non-Chinese input. -/
def romHet (s : List Char) : List Token :=
  if s = ['你', 'の'] then [['n', 'i', '3'], ['の']]
  else s.map (fun c => [c])

/-- A concrete word segmenter returning the whole text as one segment. -/
def segfId (s : List Char) : List (List Char) :=
  [s]

/-- A concrete parsed vocabulary holding the four reserved tokens and the
letter `a`. -/
def t2id0 : List (Token × Int) :=
  [(['_'], 0), (['^'], 1), (['$'], 2), ([' '], 3), (['a'], 4)]

/-- The tokenizer built from `t2id0`. -/
def tk0 : Tokenizer :=
  ⟨t2id0, 0, 1, 2, 3⟩

/-- Follows the words of claim C4 (not the source): a table sending each
of the full-width characters `（ ） ： ； “ ” ‘ ’` to its ASCII/half-width
equivalent; in particular the full-width semicolon goes to the ASCII
semicolon. -/
def specHalfWidth (c : Char) : Char :=
  if c = '（' then '('
  else if c = '）' then ')'
  else if c = '：' then ':'
  else if c = '；' then ';'
  else if c = '“' then quot
  else if c = '”' then quot
  else if c = '‘' then apos
  else if c = '’' then apos
  else c

/-! Helper lemmas. -/

theorem intersperse_flat (pad : Int) (a : Int) (rest : List Int) :
    intersperse (a :: rest) pad = a :: rest.flatMap (fun b => [pad, b]) := by
  induction rest generalizing a with
  | nil => rfl
  | cons y r ih =>
    rw [show intersperse (a :: y :: r) pad = a :: pad :: intersperse (y :: r) pad from rfl]
    rw [ih y]
    rfl

theorem flat_pair_length (pad : Int) (rest : List Int) :
    (rest.flatMap (fun b => [pad, b])).length = 2 * rest.length := by
  induction rest with
  | nil => rfl
  | cons y r ih =>
    simp only [List.flatMap_cons, List.length_append, ih, List.length_cons,
      List.length_nil]
    omega

theorem intersperse_length (pad : Int) (l : List Int) (h : 2 ≤ l.length) :
    (intersperse l pad).length = 2 * l.length - 1 := by
  match l with
  | a :: rest =>
    rw [intersperse_flat]
    simp only [List.length_cons, flat_pair_length]
    omega

theorem mem_intersperse (l : List Int) (pad i : Int)
    (h : i ∈ intersperse l pad) : i ∈ l ∨ i = pad := by
  match l with
  | [] => exact absurd h (by simp [intersperse])
  | a :: rest =>
    rw [intersperse_flat] at h
    rcases List.mem_cons.mp h with h1 | h2
    · exact Or.inl (by simp [h1])
    · rcases List.mem_flatMap.mp h2 with ⟨b, hb, hib⟩
      rcases List.mem_cons.mp hib with h3 | h4
      · exact Or.inr h3
      · refine Or.inl (List.mem_cons_of_mem _ ?_)
        rw [show i = b from by simpa using h4]
        exact hb

theorem lookupTok_mem (l : List (Token × Int)) (t : Token) (v : Int)
    (h : lookupTok l t = some v) : (t, v) ∈ l := by
  induction l with
  | nil => exact absurd h (by simp [lookupTok])
  | cons p rest ih =>
    rw [show lookupTok (p :: rest) t = if p.1 = t then some p.2 else lookupTok rest t from rfl] at h
    by_cases hk : p.1 = t
    · rw [if_pos hk] at h
      have hv : p.2 = v := Option.some_inj.mp h
      rw [← hk, ← hv]
      simp
    · rw [if_neg hk] at h
      exact List.mem_cons_of_mem _ (ih h)

theorem mapTokens_go (t2id : List (Token × Int)) (ts : List Token)
    (ids : List Int) (ws : List Token) :
    ts.foldl (mapStep t2id) (ids, ws) =
      (ids ++ ts.filterMap (lookupTok t2id),
       ws ++ ts.filter (fun t => (lookupTok t2id t).isNone)) := by
  induction ts generalizing ids ws with
  | nil => simp
  | cons t rest ih =>
    rw [List.foldl_cons]
    cases hl : lookupTok t2id t with
    | none =>
      rw [show mapStep t2id (ids, ws) t = (ids, ws ++ [t]) by simp [mapStep, hl]]
      rw [ih]
      simp [List.filterMap_cons, List.filter_cons, hl]
    | some i =>
      rw [show mapStep t2id (ids, ws) t = (ids ++ [i], ws) by simp [mapStep, hl]]
      rw [ih]
      simp [List.filterMap_cons, List.filter_cons, hl]

theorem mapTokens_fst (t2id : List (Token × Int)) (ts : List Token) :
    (mapTokens t2id ts).1 = ts.filterMap (lookupTok t2id) := by
  rw [show mapTokens t2id ts = ts.foldl (mapStep t2id) ([], []) from rfl, mapTokens_go]
  simp

theorem mapTokens_snd (t2id : List (Token × Int)) (ts : List Token) :
    (mapTokens t2id ts).2 = ts.filter (fun t => (lookupTok t2id t).isNone) := by
  rw [show mapTokens t2id ts = ts.foldl (mapStep t2id) ([], []) from rfl, mapTokens_go]
  simp

theorem mkTokenizer_spec (t2id : List (Token × Int)) (tk : Tokenizer)
    (h : mkTokenizer t2id = some tk) :
    tk.token2id = t2id ∧
    lookupTok t2id ['_'] = some tk.pad_id ∧
    lookupTok t2id ['^'] = some tk.sos_id ∧
    lookupTok t2id ['$'] = some tk.eos_id ∧
    lookupTok t2id [' '] = some tk.space_id := by
  unfold mkTokenizer at h
  cases hp : lookupTok t2id ['_'] <;> rw [hp] at h <;>
    cases hs : lookupTok t2id ['^'] <;> rw [hs] at h <;>
      cases he : lookupTok t2id ['$'] <;> rw [he] at h <;>
        cases hsp : lookupTok t2id [' '] <;> rw [hsp] at h <;>
          simp_all
  rcases h with ⟨rfl⟩
  simp

theorem perUtt_stages (tk : Tokenizer) (ib s e : Bool) (ts : List Token) :
    perUtt tk ib s e ts =
      eosStage e tk.eos_id (sosStage s tk.sos_id
        (blankStage ib tk.pad_id (mapTokens tk.token2id ts).1)) := rfl

theorem mem_blankStage (b : Bool) (pad i : Int) (ids : List Int)
    (h : i ∈ blankStage b pad ids) : i ∈ ids ∨ i = pad := by
  unfold blankStage at h
  cases b with
  | false => exact Or.inl (by simpa using h)
  | true => exact mem_intersperse ids pad i (by simpa using h)

theorem mem_sosStage (b : Bool) (s i : Int) (ids : List Int)
    (h : i ∈ sosStage b s ids) : i ∈ ids ∨ i = s := by
  unfold sosStage at h
  cases b with
  | false => exact Or.inl (by simpa using h)
  | true => simpa [Or.comm] using List.mem_cons.mp h

theorem mem_eosStage (b : Bool) (e i : Int) (ids : List Int)
    (h : i ∈ eosStage b e ids) : i ∈ ids ∨ i = e := by
  unfold eosStage at h
  cases b with
  | false => exact Or.inl (by simpa using h)
  | true =>
    rcases (by simpa using h : i ∈ ids ∨ i = e) with h1 | h2
    · exact Or.inl h1
    · exact Or.inr h2

theorem mem_perUtt (tk : Tokenizer) (ib s e : Bool) (ts : List Token)
    (i : Int) (h : i ∈ perUtt tk ib s e ts) :
    i ∈ (mapTokens tk.token2id ts).1 ∨
      i = tk.pad_id ∨ i = tk.sos_id ∨ i = tk.eos_id := by
  rw [perUtt_stages] at h
  rcases mem_eosStage _ _ _ _ h with h1 | h1
  · rcases mem_sosStage _ _ _ _ h1 with h2 | h2
    · rcases mem_blankStage _ _ _ _ h2 with h3 | h3
      · exact Or.inl h3
      · exact Or.inr (Or.inl h3)
    · exact Or.inr (Or.inr (Or.inl h2))
  · exact Or.inr (Or.inr (Or.inr h1))

theorem map_getElem_middle {α β : Type} (f : α → β) (pre : List α)
    (x : α) (post : List α) :
    ((pre ++ x :: post).map f)[pre.length]? = some (f x) := by
  induction pre with
  | nil => simp
  | cons p rest ih => simpa using ih

theorem customTrans_idem (c : Char) :
    customTrans (customTrans c) = customTrans c := by
  by_cases h1 : c = '（'
  · rw [h1]; rfl
  by_cases h2 : c = '）'
  · rw [h2]; rfl
  by_cases h3 : c = '：'
  · rw [h3]; rfl
  by_cases h4 : c = '；'
  · rw [h4]; rfl
  by_cases h5 : c = ';'
  · rw [h5]; rfl
  by_cases h6 : c = '“'
  · rw [h6]; rfl
  by_cases h7 : c = '”'
  · rw [h7]; rfl
  by_cases h8 : c = '‘'
  · rw [h8]; rfl
  by_cases h9 : c = '’'
  · rw [h9]; rfl
  have hc : customTrans c = c := by
    simp [customTrans, h1, h2, h3, h4, h5, h6, h7, h8, h9]
  rw [hc, hc]

theorem customTrans_of_not_mem (c : Char)
    (h : c ∉ ['（', '）', '：', '；', ';', '“', '”', '‘', '’']) :
    customTrans c = c := by
  simp only [List.mem_cons, List.not_mem_nil, or_false] at h
  push_neg at h
  obtain ⟨h1, h2, h3, h4, h5, h6, h7, h8, h9⟩ := h
  simp [customTrans, h1, h2, h3, h4, h5, h6, h7, h8, h9]

theorem applyTrans_idem (t : List Char) :
    applyTrans (applyTrans t) = applyTrans t := by
  unfold applyTrans
  induction t with
  | nil => rfl
  | cons c rest ih => simp [customTrans_idem, ih]

theorem processSeg_latin (rom : List Char → List Token) (p : Bool)
    (acc : List Token) (seg : List Char) (h : utf8Len seg = seg.length) :
    processSeg rom p acc seg =
      (if sepNeeded acc (utf8Len seg) then acc ++ [([' '] : Token)] else acc)
        ++ seg.map (fun c => ([c] : Token)) := by
  unfold processSeg
  rw [if_pos h]

theorem processSeg_cjk (rom : List Char → List Token) (acc : List Token)
    (seg : List Char) (h1 : 1 ≤ seg.length)
    (h3 : utf8Len seg = 3 * seg.length) :
    processSeg rom true acc seg = acc ++ cjkRewrite (rom seg) seg := by
  unfold processSeg
  rw [if_neg (by omega), if_pos ⟨rfl, h3⟩]

theorem processSeg_mixed_of_no_polyphone (rom : List Char → List Token)
    (acc : List Token) (seg : List Char) (h1 : 1 ≤ seg.length)
    (h3 : utf8Len seg = 3 * seg.length) :
    processSeg rom false acc seg = acc ++ mixedRewrite rom seg := by
  unfold processSeg
  rw [if_neg (by omega), if_neg (by simp)]

theorem cjkRewrite_all_chinese (syl : List Token) (seg : List Char)
    (hlen : syl.length = seg.length)
    (hch : ∀ c ∈ seg, is_chinese c = true) :
    cjkRewrite syl seg = syl.flatMap (fun s => [([' '] : Token), s]) := by
  induction seg generalizing syl with
  | nil =>
    rw [List.length_nil, List.length_eq_zero] at hlen
    rw [hlen]
    rfl
  | cons c cs ih =>
    match syl, hlen with
    | s :: ss, hlen =>
      have hc : is_chinese c = true := hch c (List.mem_cons_self _ _)
      have hrest : ∀ x ∈ cs, is_chinese x = true :=
        fun x hx => hch x (List.mem_cons_of_mem _ hx)
      rw [show cjkRewrite (s :: ss) (c :: cs) =
        (if is_chinese c then [([' '] : Token)] else []) ++ [s] ++ cjkRewrite ss cs from rfl]
      rw [hc, ih ss (by simpa using hlen) hrest]
      rfl

theorem cjkRewrite_no_chinese (syl : List Token) (seg : List Char)
    (hlen : syl.length = seg.length)
    (hch : ∀ c ∈ seg, is_chinese c = false) :
    cjkRewrite syl seg = syl := by
  induction seg generalizing syl with
  | nil =>
    rw [List.length_nil, List.length_eq_zero] at hlen
    rw [hlen]
    rfl
  | cons c cs ih =>
    match syl, hlen with
    | s :: ss, hlen =>
      have hc : is_chinese c = false := hch c (List.mem_cons_self _ _)
      have hrest : ∀ x ∈ cs, is_chinese x = false :=
        fun x hx => hch x (List.mem_cons_of_mem _ hx)
      rw [show cjkRewrite (s :: ss) (c :: cs) =
        (if is_chinese c then [([' '] : Token)] else []) ++ [s] ++ cjkRewrite ss cs from rfl]
      rw [hc, ih ss (by simpa using hlen) hrest]
      rfl

theorem cjkRewrite_flatMap (syl : List Token) (seg : List Char) :
    cjkRewrite syl seg = (seg.zip syl).flatMap
      (fun p => (if is_chinese p.1 then [([' '] : Token)] else []) ++ [p.2]) := by
  unfold cjkRewrite
  generalize seg.zip syl = l
  induction l with
  | nil => rfl
  | cons p rest ih =>
    rw [List.foldr_cons, ih, List.flatMap_cons, List.append_assoc]

theorem cjkRewrite_split (pre : List Char) (c : Char) (post : List Char)
    (spre : List Token) (s : Token) (spost : List Token)
    (hlen : pre.length = spre.length) :
    cjkRewrite (spre ++ s :: spost) (pre ++ c :: post) =
      cjkRewrite spre pre ++
        (if is_chinese c then [([' '] : Token)] else []) ++
        (s :: cjkRewrite spost post) := by
  rw [cjkRewrite_flatMap, cjkRewrite_flatMap, cjkRewrite_flatMap]
  rw [List.zip_append hlen, List.flatMap_append, List.zip_cons_cons,
    List.flatMap_cons]
  simp [List.append_assoc]

theorem mixedRewrite_chinese_single (rom : List Char → List Token)
    (c : Char) (hc : is_chinese c = true) :
    mixedRewrite rom [c] = ([' '] : Token) :: rom [c] := by
  have hge : ¬ c.toNat < 256 := by
    have := of_decide_eq_true hc
    omega
  show (if c.toNat < 256 then [([c] : Token)]
      else if is_chinese c then ([' '] : Token) :: rom [c]
      else [([c] : Token)]) ++ [] = ([' '] : Token) :: rom [c]
  rw [if_neg hge, if_pos hc, List.append_nil]

theorem sepNeeded_nil (bl : Nat) : sepNeeded [] bl = false := rfl

theorem sepNeeded_concat (acc : List Token) (t : Token) (bl : Nat) :
    sepNeeded (acc ++ [t]) bl = (decide (1 < bl) && ! subListOf t sepChars) := by
  unfold sepNeeded
  rw [List.getLast?_concat]

theorem parseStep_error (e : VocabError) (lines : List (List Char)) :
    lines.foldl parseStep (.error e) = .error e := by
  induction lines with
  | nil => rfl
  | cons l rest ih => exact ih

theorem parseLine_blank (acc : List (Token × Int)) (line : List Char)
    (h : rstrip line = []) : parseLine acc line = .error .indexError := by
  unfold parseLine
  rw [h]
  rfl

theorem parseTokens_blank_line_fails (pre : List (List Char))
    (l : List Char) (post : List (List Char)) (h : rstrip l = []) :
    ∃ e, parseTokens (pre ++ l :: post) = .error e := by
  unfold parseTokens
  rw [List.foldl_append]
  cases hpre : List.foldl parseStep (Except.ok []) pre with
  | error e =>
    exact ⟨e, by rw [List.foldl_cons, show parseStep (.error e) l = .error e from rfl,
      parseStep_error]⟩
  | ok acc =>
    refine ⟨.indexError, ?_⟩
    rw [List.foldl_cons, show parseStep (.ok acc) l = parseLine acc l from rfl,
      parseLine_blank acc l h, parseStep_error]

/-! Claim theorems. -/

/-- C1 counterexample: the claim says the pure-CJK class branch calls the
romanizer unconditionally and the `polyphone` flag is checked only in the
mixed-character branch, where it gates per-character romanization.  In the
code the guard on tokenizer.py line 83 is `polyphone and seg_byte_len ==
3 * len(seg)`, so with `polyphone=False` the pure-CJK segment `你好`
falls through to the mixed branch and is romanized character by character
(citation tones, here `ni3`), while with `polyphone=True` it is romanized
as one segment (tone sandhi, here `ni2`): the output of the pure-CJK
segment depends on `polyphone`, and per-character romanization in the
fall-through branch is not gated by the flag. -/
theorem c1_counterexample :
    processSeg rom0 false [] ['你', '好'] =
      [[' '], ['n', 'i', '3'], [' '], ['h', 'a', 'o', '3']] ∧
    processSeg rom0 true [] ['你', '好'] =
      [[' '], ['n', 'i', '2'], [' '], ['h', 'a', 'o', '3']] ∧
    processSeg rom0 false [] ['你', '好'] ≠ processSeg rom0 true [] ['你', '好'] := by
  refine ⟨rfl, rfl, ?_⟩
  decide

/-- C1 amended: the `polyphone` flag is checked in the pure-CJK branch
guard itself: a nonempty segment whose UTF-8 byte length is 3 times its
character count is rewritten by the pure-CJK branch only when
`polyphone=true`; when `polyphone=false` it is processed by the
mixed-character branch, which romanizes each CJK character
unconditionally (no `polyphone` check there). -/
theorem c1_amended (rom : List Char → List Token) (acc : List Token)
    (seg : List Char) (h1 : 1 ≤ seg.length)
    (h3 : utf8Len seg = 3 * seg.length) :
    processSeg rom false acc seg = acc ++ mixedRewrite rom seg ∧
    processSeg rom true acc seg = acc ++ cjkRewrite (rom seg) seg ∧
    (∀ c, is_chinese c = true → mixedRewrite rom [c] = ([' '] : Token) :: rom [c]) :=
  ⟨processSeg_mixed_of_no_polyphone rom acc seg h1 h3,
   processSeg_cjk rom acc seg h1 h3,
   fun c hc => mixedRewrite_chinese_single rom c hc⟩

/-- C1 witness: the amended theorem instantiated at the segment `你好`. -/
theorem c1_witness :
    1 ≤ (['你', '好'] : List Char).length ∧
    utf8Len ['你', '好'] = 3 * (['你', '好'] : List Char).length ∧
    processSeg rom0 false [] ['你', '好'] = [] ++ mixedRewrite rom0 ['你', '好'] :=
  ⟨by decide, by decide,
   (c1_amended rom0 [] ['你', '好'] (by decide) (by decide)).1⟩

/-- C2: `ApplyBlankInterspersion` (the spec-modelled `intersperse`) on a
sequence of length `n ≥ 2` produces length `2n-1`; on length 0 or 1 it
returns the input unchanged; and on `a :: rest` the result is `a`
followed by `pad, b` for each later element `b` — i.e. `pad` occurs
exactly between adjacent pairs, never before the first or after the last
element. -/
theorem c2_theorem (seq : List Int) (pad : Int) :
    (2 ≤ seq.length → (intersperse seq pad).length = 2 * seq.length - 1) ∧
    (seq.length ≤ 1 → intersperse seq pad = seq) ∧
    (∀ a rest, seq = a :: rest →
      intersperse seq pad = a :: rest.flatMap (fun b => [pad, b])) := by
  refine ⟨fun h => intersperse_length pad seq h, ?_, ?_⟩
  · intro h
    match seq with
    | [] => rfl
    | [x] => rfl
    | x :: y :: r => simp at h
  · intro a rest hseq
    rw [hseq]
    exact intersperse_flat pad a rest

/-- C2 witness: the theorem instantiated at `[1, 2, 3]` with pad 0. -/
theorem c2_witness :
    2 ≤ ([1, 2, 3] : List Int).length ∧
    (intersperse [1, 2, 3] 0).length = 2 * ([1, 2, 3] : List Int).length - 1 :=
  ⟨by decide, (c2_theorem [1, 2, 3] 0).1 (by decide)⟩

/-- C3 counterexample: the claim says a separator is injected before a
Latin-class segment if and only if the previously emitted token was not a
separator or quote character.  With previously emitted token `a` (neither
separator nor quote) and the one-byte Latin segment `b`, the code injects
no separator, because line 80 also requires `seg_byte_len > 1`. -/
theorem c3_counterexample :
    processSeg romId true [['a']] ['b'] = [['a'], ['b']] ∧
    processSeg romId true [['a']] ['b'] ≠ [['a'], [' '], ['b']] ∧
    subListOf ['a'] sepChars = false := by
  refine ⟨rfl, by decide, by decide⟩

/-- C3 amended: a Latin-class segment (UTF-8 byte length equals character
count) is emitted character by character, with a single separator
injected before it if and only if the emitted output is nonempty AND the
segment's byte length exceeds 1 AND the previously emitted token is not a
substring of `" :'\""` (so the excluded set also contains the colon, not
only the separator and quote characters). -/
theorem c3_amended (rom : List Char → List Token) (p : Bool)
    (acc : List Token) (seg : List Char) (h : utf8Len seg = seg.length) :
    (processSeg rom p acc seg =
      (if sepNeeded acc (utf8Len seg) then acc ++ [([' '] : Token)] else acc)
        ++ seg.map (fun c => ([c] : Token))) ∧
    (∀ bl, sepNeeded [] bl = false) ∧
    (∀ acc2 (t : Token) bl,
      sepNeeded (acc2 ++ [t]) bl = (decide (1 < bl) && ! subListOf t sepChars)) :=
  ⟨processSeg_latin rom p acc seg h, sepNeeded_nil, sepNeeded_concat⟩

/-- C3 witness: the amended theorem instantiated at the first, purely
ASCII segment `hello`: no separator, characters emitted one by one. -/
theorem c3_witness :
    utf8Len ['h', 'e', 'l', 'l', 'o'] = (['h', 'e', 'l', 'l', 'o'] : List Char).length ∧
    processSeg romId true [] ['h', 'e', 'l', 'l', 'o'] =
      (if sepNeeded [] (utf8Len ['h', 'e', 'l', 'l', 'o'])
        then [] ++ [([' '] : Token)] else [])
        ++ (['h', 'e', 'l', 'l', 'o'] : List Char).map (fun c => ([c] : Token)) :=
  ⟨by decide, (c3_amended romId true [] ['h', 'e', 'l', 'l', 'o'] (by decide)).1⟩

/-- C4 counterexample: the claim says each of `（ ） ： ； “ ” ‘ ’` maps to
its ASCII/half-width equivalent, but the code maps the full-width
semicolon `；` to the comma `,`, not to the half-width semicolon `;`
(which the claim-side table `specHalfWidth` produces). -/
theorem c4_counterexample :
    customTrans '；' = ',' ∧ specHalfWidth '；' = ';' ∧
    customTrans '；' ≠ specHalfWidth '；' := by
  refine ⟨rfl, rfl, by decide⟩

/-- C4 amended: the substitution table maps `（ ） ：` to `( ) :`, the
curly quotes `“ ” ‘ ’` to the ASCII double quote and apostrophe, and maps
both the full-width semicolon `；` and the ASCII semicolon `;` to the
comma `,` (not to the half-width semicolon); every other character is
unchanged; the substitution is idempotent and it is applied to the
utterance before segmentation, unconditionally and independently of
`polyphone`. -/
theorem c4_amended :
    (customTrans '（' = '(' ∧ customTrans '）' = ')' ∧ customTrans '：' = ':' ∧
     customTrans '；' = ',' ∧ customTrans ';' = ',' ∧ customTrans '“' = quot ∧
     customTrans '”' = quot ∧ customTrans '‘' = apos ∧ customTrans '’' = apos) ∧
    (∀ c, c ∉ ['（', '）', '：', '；', ';', '“', '”', '‘', '’'] → customTrans c = c) ∧
    (∀ text, applyTrans (applyTrans text) = applyTrans text) ∧
    (∀ segf rom p text,
      convert_char_to_pinyin segf rom p [applyTrans text] =
        convert_char_to_pinyin segf rom p [text]) := by
  refine ⟨⟨rfl, rfl, rfl, rfl, rfl, rfl, rfl, rfl, rfl⟩,
    customTrans_of_not_mem, applyTrans_idem, ?_⟩
  intro segf rom p text
  show [processSegs rom p (segf (applyTrans (applyTrans text)))] = _
  rw [applyTrans_idem]
  rfl

/-- C4 witness: the amended theorem instantiated at the letter `x` (not
in the table) and at the text `；`. -/
theorem c4_witness :
    customTrans 'x' = 'x' ∧ applyTrans (applyTrans ['；']) = applyTrans ['；'] :=
  ⟨c4_amended.2.1 'x' (by decide), c4_amended.2.2.1 ['；']⟩

/-- C5: mapping tokens to ids is total (the embedding returns plain
lists, never an exception): the id stream is exactly the in-vocabulary
ids in order (absent tokens are dropped and later tokens still
processed), the warning stream names exactly the skipped tokens, and the
output slot of an utterance in a batch is determined by that utterance's
tokens alone, whatever its siblings are. -/
theorem c5_theorem (t2id : List (Token × Int)) (ts : List Token) :
    ((mapTokens t2id ts).1 = ts.filterMap (lookupTok t2id) ∧
     (mapTokens t2id ts).2 = ts.filter (fun t => (lookupTok t2id t).isNone)) ∧
    (∀ (tk : Tokenizer) (ib s e : Bool) (pre post : List (List Token)),
      (tokens_to_token_ids tk (pre ++ ts :: post) ib s e)[pre.length]? =
        some (perUtt tk ib s e ts)) := by
  refine ⟨⟨mapTokens_fst t2id ts, mapTokens_snd t2id ts⟩, ?_⟩
  intro tk ib s e pre post
  exact map_getElem_middle (perUtt tk ib s e) pre ts post

/-- C6: every id appearing in any output sequence of
`tokens_to_token_ids`, for every batch and every combination of the
`intersperse_blank`, `add_sos` and `add_eos` flags, is a value of the
vocabulary mapping: unknown tokens are filtered before mapping, and the
pad, sos and eos ids themselves were extracted from the mapping by the
constructor. -/
theorem c6_theorem (t2id : List (Token × Int)) (tk : Tokenizer)
    (ib s e : Bool) (tl : List (List Token)) (out : List Int) (i : Int)
    (hmk : mkTokenizer t2id = some tk)
    (hout : out ∈ tokens_to_token_ids tk tl ib s e)
    (hi : i ∈ out) : ∃ tok, (tok, i) ∈ t2id := by
  obtain ⟨hteq, hpad, hsos, heos, hsp⟩ := mkTokenizer_spec t2id tk hmk
  rcases List.mem_map.mp hout with ⟨ts, hts, rfl⟩
  rcases mem_perUtt tk ib s e ts i hi with h1 | h2 | h3 | h4
  · rw [mapTokens_fst, hteq] at h1
    rcases List.mem_filterMap.mp h1 with ⟨tok, _, hlk⟩
    exact ⟨tok, lookupTok_mem t2id tok i hlk⟩
  · exact ⟨['_'], lookupTok_mem t2id ['_'] i (h2 ▸ hpad)⟩
  · exact ⟨['^'], lookupTok_mem t2id ['^'] i (h3 ▸ hsos)⟩
  · exact ⟨['$'], lookupTok_mem t2id ['$'] i (h4 ▸ heos)⟩

/-- C6 witness: the theorem instantiated at the concrete vocabulary
`t2id0`, the utterance `[a, z, a]` (with `z` out of vocabulary) and all
three flags on; the id 2 in the output `[1, 4, 0, 4, 2]` is the eos id
and is a value of the mapping. -/
theorem c6_witness : ∃ tok, (tok, (2 : Int)) ∈ t2id0 :=
  c6_theorem t2id0 tk0 true true true [[['a'], ['z'], ['a']]] [1, 4, 0, 4, 2] 2
    (by rfl) (by decide) (by decide)

/-- C7: in the pure-CJK rewrite branch (reached with `polyphone=true` on
a nonempty segment whose byte length is 3 times its character count),
each source character is replaced by its romanized syllable with a
separator injected immediately before it exactly when the character lies
in `U+3100`..`U+9FFF`.  The per-character iff is proved for arbitrary —
in particular heterogeneous — segments: splitting the segment and its
syllable list at ANY position, the rewrite is the rewrite of the prefix,
then exactly one separator token if that position's source character is
in range and nothing at all if it is not, then the syllable, then the
rewrite of the rest.  Specialized: over an all-CJK segment every
syllable is preceded by a separator, over a no-CJK segment none is; the
input `你好` with a romanizer producing `ni3 hao3` yields
`[' ', 'ni3', ' ', 'hao3']`; and the heterogeneous CJK-class segment
`你の` (both 3-byte, only `你` in range) yields `[' ', 'ni3', 'の']` —
separator before `ni3` only. -/
theorem c7_theorem :
    (∀ (rom : List Char → List Token) (acc : List Token) (seg : List Char),
      1 ≤ seg.length → utf8Len seg = 3 * seg.length →
      processSeg rom true acc seg = acc ++ cjkRewrite (rom seg) seg) ∧
    (∀ (pre : List Char) (c : Char) (post : List Char)
       (spre : List Token) (s : Token) (spost : List Token),
      pre.length = spre.length →
      cjkRewrite (spre ++ s :: spost) (pre ++ c :: post) =
        cjkRewrite spre pre ++
          (if is_chinese c then [([' '] : Token)] else []) ++
          (s :: cjkRewrite spost post)) ∧
    (∀ (syl : List Token) (seg : List Char), syl.length = seg.length →
      (∀ c ∈ seg, is_chinese c = true) →
      cjkRewrite syl seg = syl.flatMap (fun sy => [([' '] : Token), sy])) ∧
    (∀ (syl : List Token) (seg : List Char), syl.length = seg.length →
      (∀ c ∈ seg, is_chinese c = false) → cjkRewrite syl seg = syl) ∧
    (∀ (segf : List Char → List (List Char)) (rom : List Char → List Token),
      segf ['你', '好'] = [['你', '好']] →
      rom ['你', '好'] = [['n', 'i', '3'], ['h', 'a', 'o', '3']] →
      convert_char_to_pinyin segf rom true [['你', '好']] =
        [[[' '], ['n', 'i', '3'], [' '], ['h', 'a', 'o', '3']]]) ∧
    (∀ (rom : List Char → List Token),
      rom ['你', 'の'] = [['n', 'i', '3'], ['の']] →
      processSeg rom true [] ['你', 'の'] = [[' '], ['n', 'i', '3'], ['の']]) := by
  refine ⟨processSeg_cjk, cjkRewrite_split, cjkRewrite_all_chinese,
    cjkRewrite_no_chinese, ?_, ?_⟩
  · intro segf rom hsegf hrom
    show [processSegs rom true (segf (applyTrans ['你', '好']))] = _
    rw [show applyTrans ['你', '好'] = ['你', '好'] from by decide, hsegf]
    show [processSeg rom true [] ['你', '好']] = _
    rw [processSeg_cjk rom [] ['你', '好'] (by decide) (by decide), hrom]
    decide
  · intro rom hrom
    rw [processSeg_cjk rom [] ['你', 'の'] (by decide) (by decide), hrom]
    decide

/-- C7 witness: the concrete-example conjuncts instantiated with the
identity segmenter and the `ni3 hao3` / `ni3 の` romanizers, and the
split conjunct instantiated at the heterogeneous segment `你の` split at
its second character. -/
theorem c7_witness :
    convert_char_to_pinyin segfId romC7 true [['你', '好']] =
      [[[' '], ['n', 'i', '3'], [' '], ['h', 'a', 'o', '3']]] ∧
    processSeg romHet true [] ['你', 'の'] = [[' '], ['n', 'i', '3'], ['の']] ∧
    cjkRewrite ([['n', 'i', '3']] ++ ['の'] :: []) (['你'] ++ 'の' :: []) =
      cjkRewrite [['n', 'i', '3']] ['你'] ++
        (if is_chinese 'の' then [([' '] : Token)] else []) ++
        (['の'] :: cjkRewrite [] []) :=
  ⟨c7_theorem.2.2.2.2.1 segfId romC7 (by rfl) (by rfl),
   c7_theorem.2.2.2.2.2 romHet (by rfl),
   c7_theorem.2.1 ['你'] 'の' [] [['n', 'i', '3']] ['の'] [] (by rfl)⟩

/-- C8: `tokens_to_token_ids` composes its transformations in the fixed
order map, then optional blank interspersion, then optional sos prepend,
then optional eos append; and applying the sos/eos steps with both flags
true increases the length by exactly 2, placing the sos id at index 0
and the eos id at the last index. -/
theorem c8_theorem :
    (∀ (tk : Tokenizer) (tl : List (List Token)) (ib s e : Bool),
      tokens_to_token_ids tk tl ib s e =
        tl.map (fun ts => eosStage e tk.eos_id (sosStage s tk.sos_id
          (blankStage ib tk.pad_id (mapTokens tk.token2id ts).1)))) ∧
    (∀ (ids : List Int) (si ei : Int),
      (eosStage true ei (sosStage true si ids)).length = ids.length + 2 ∧
      (eosStage true ei (sosStage true si ids)).head? = some si ∧
      (eosStage true ei (sosStage true si ids)).getLast? = some ei) := by
  constructor
  · intro tk tl ib s e
    rw [show tokens_to_token_ids tk tl ib s e = tl.map (perUtt tk ib s e) from rfl]
    rw [show perUtt tk ib s e = (fun ts => eosStage e tk.eos_id (sosStage s tk.sos_id
      (blankStage ib tk.pad_id (mapTokens tk.token2id ts).1))) from
      funext (fun ts => perUtt_stages tk ib s e ts)]
  · intro ids si ei
    refine ⟨?_, rfl, ?_⟩
    · show ((si :: ids) ++ [ei]).length = ids.length + 2
      simp
    · show ((si :: ids) ++ [ei]).getLast? = some ei
      exact List.getLast?_concat _

/-- C9: for every `lang` other than `cmn` and `zh-cn`,
`texts_to_token_ids` returns `none` (Python falls off the end of the
function, whose phonemization block is a dead string literal, and
returns `None` rather than the declared list of id lists). -/
theorem c9_theorem (tk : Tokenizer) (segf : List Char → List (List Char))
    (rom : List Char → List Token) (texts : List (List Char))
    (ib s e : Bool) (lang : String) (h : lang ∉ ["cmn", "zh-cn"]) :
    texts_to_token_ids tk segf rom texts ib s e lang = none := by
  unfold texts_to_token_ids
  rw [if_neg]
  simpa using h

/-- C9 witness: the theorem instantiated at `lang = "en"`. -/
theorem c9_witness :
    texts_to_token_ids tk0 segfId romId [] true false false "en" = none :=
  c9_theorem tk0 segfId romId [] true false false "en" (by decide)

/-- C10 counterexample: a vocabulary source that contains a blank line
but whose earlier lines repeat a token fails with the duplicate-token
assertion, not with an indexing error, so "fails with an indexing error"
does not hold of every source containing a blank line. -/
theorem c10_counterexample :
    parseTokens [['a', ' ', '0'], ['a', ' ', '1'], []] = .error .duplicateToken ∧
    rstrip [] = ([] : List Char) ∧
    VocabError.duplicateToken ≠ VocabError.indexError := by
  refine ⟨rfl, rfl, by decide⟩

/-- C10 amended: a line that is empty after stripping trailing
whitespace always fails the parsing step with an indexing error
(splitting yields zero fields, the one-field space case does not apply,
and the two-field parse indexes the empty field list), and a vocabulary
source containing such a line never parses successfully — though an
earlier malformed or duplicate line may abort first with a different
error. -/
theorem c10_amended :
    (∀ (acc : List (Token × Int)) (line : List Char), rstrip line = [] →
      parseLine acc line = .error .indexError) ∧
    (∀ (pre : List (List Char)) (l : List Char) (post : List (List Char)),
      rstrip l = [] → ∃ e, parseTokens (pre ++ l :: post) = .error e) :=
  ⟨parseLine_blank, parseTokens_blank_line_fails⟩

/-- C10 witness: the amended theorem instantiated at the all-whitespace
line consisting of one space. -/
theorem c10_witness :
    parseLine [] [' '] = .error .indexError ∧
    ∃ e, parseTokens [[' ']] = .error e :=
  ⟨c10_amended.1 [] [' '] (by decide), c10_amended.2 [] [' '] [] (by decide)⟩

end VitsTokenizer
